import Mathlib

/-!
# Verification of `fac.c`

A shallow embedding of the three functions of `src/fac.c` and of its entry
point.  The C type `int` is modelled by `Int` together with an explicit
reduction into the 32-bit two's-complement range after every arithmetic
operation (`n - 1` and `n * _`): signed overflow wraps modulo `2^32`, the
overflow rule the specification records for the reference implementation, and
it is applied to the decrement and to the multiplication alike.  Recursion is
modelled with a fuel argument that bounds the number of nested activations:
the outermost call and every recursive call consume one unit, and running out
of fuel yields `none`.  A call therefore returns `some r` only by reaching the
`n == 0` base case, and the least fuel for which it does so is one more than
the number of recursive calls it performs.
-/

namespace Fac

/-! ## 32-bit signed integers -/

/-- Smallest value of the C type `int` (32 bits, two's complement). -/
def INT_MIN : Int := -2147483648

/-- Largest value of the C type `int` (32 bits, two's complement). -/
def INT_MAX : Int := 2147483647

/-- The values a C `int` can hold. -/
def InRange (x : Int) : Prop := INT_MIN ≤ x ∧ x ≤ INT_MAX

instance (x : Int) : Decidable (InRange x) := by
  unfold InRange; infer_instance

/-- Reduction of a mathematical integer to the `int` it is stored as:
the representative of `x` modulo `2^32` lying in `[-2^31, 2^31)`. -/
def wrap32 (x : Int) : Int :=
  let r := x % 4294967296
  if r < 2147483648 then r else r - 4294967296

/-- The C expression `n - 1` on `int`. -/
def sub32 (a b : Int) : Int := wrap32 (a - b)

/-- The C expression `a * b` on `int`. -/
def mul32 (a b : Int) : Int := wrap32 (a * b)

/-! ## The functions of `fac.c` -/

/-- Embedding of `int fac(int n)`: `if (n == 0) return 1; else return n * fac(n - 1);`. -/
def fac : Nat → Int → Option Int
  | 0, _ => none
  | fuel + 1, n =>
    if n = 0 then some 1
    else (fac fuel (sub32 n 1)).map (fun r => mul32 n r)

/-- Embedding of `int fac_tr_loop(int n, int acc)`:
`if (n == 0) return acc; else return fac_tr_loop(n - 1, n * acc);`. -/
def fac_tr_loop : Nat → Int → Int → Option Int
  | 0, _, _ => none
  | fuel + 1, n, acc =>
    if n = 0 then some acc
    else fac_tr_loop fuel (sub32 n 1) (mul32 n acc)

/-- Embedding of `int fac_tr(int n)`: `return fac_tr_loop(n, 1);`. -/
def fac_tr (fuel : Nat) (n : Int) : Option Int :=
  fac_tr_loop fuel n 1

/-- The `printf` conversion `%d` of an `int`: its decimal digits, preceded by
`-` when the value is negative. -/
def fmt_d (x : Int) : String := toString x

/-- Embedding of `main`: the text written to standard output (initially empty)
by the two `printf` calls, in program order, paired with the returned exit
code.  The arguments `argc` and `argv` are not read. -/
def main (fuel : Nat) (_argc : Int) (_argv : List String) : Option (String × Int) :=
  match fac_tr fuel 5 with
  | none => none
  | some a =>
    let out1 := "" ++ ("fac(5) = " ++ fmt_d a ++ "\n")
    match fac fuel 5 with
    | none => none
    | some b =>
      let out2 := out1 ++ ("fac(5) = " ++ fmt_d b ++ "\n")
      some (out2, 0)

/-! ## Specification-side definitions -/

/-- The mathematical factorial as the specification words it: `0! = 1` and
`n! = n × (n-1)!` for `n > 0`. -/
def factorial : Nat → Nat
  | 0 => 1
  | n + 1 => (n + 1) * factorial n

/-- Reading of a natural number as a 32-bit two's-complement signed integer:
reduce modulo `2^32`, and subtract `2^32` when bit 31 of the remainder is set. -/
def toSigned32 (m : Nat) : Int :=
  if m % 4294967296 < 2147483648 then ((m % 4294967296 : Nat) : Int)
  else ((m % 4294967296 : Nat) : Int) - 4294967296

/-- Number of recursive calls that separate the argument `n` from the base case
`n == 0` under wrapping decrement: `n` itself when `n ≥ 0`, and `n + 2^32`
when `n < 0`. -/
def depth (n : Int) : Nat := (n % 4294967296).toNat

example : fac 6 5 = some 120 := by decide
example : fac 14 13 = some 1932053504 := by decide
example : fac_tr_loop 6 5 2 = some 240 := by decide
example : fac_tr 7 5 = some 120 := by decide
example : fac 5 5 = none := by decide
example : fac 20 (-3) = none := by decide
example : main 6 1 [] = some ("fac(5) = 120\nfac(5) = 120\n", 0) := by decide
example : main 6 1 [] = some ("fac(5) = 120\nfac(5) = 120\n", 0) := by rfl
example : toSigned32 (factorial 13) = 1932053504 := by decide

/-! ## Arithmetic of `wrap32` -/

theorem wrap32_of_inRange {x : Int} (h : InRange x) : wrap32 x = x := by
  unfold InRange INT_MIN INT_MAX at h
  unfold wrap32
  simp only
  split <;> omega

theorem wrap32_inRange (x : Int) : InRange (wrap32 x) := by
  unfold InRange INT_MIN INT_MAX wrap32
  simp only
  split <;> omega

theorem wrap32_emod (x : Int) : wrap32 x % 4294967296 = x % 4294967296 := by
  unfold wrap32
  simp only
  split <;> omega

theorem wrap32_congr {x y : Int} (h : x % 4294967296 = y % 4294967296) :
    wrap32 x = wrap32 y := by
  unfold wrap32
  simp only [h]

theorem wrap32_mul_wrap32 (a b : Int) : wrap32 (a * wrap32 b) = wrap32 (a * b) := by
  apply wrap32_congr
  rw [Int.mul_emod, wrap32_emod, ← Int.mul_emod]

theorem wrap32_natCast (m : Nat) : wrap32 (m : Int) = toSigned32 m := by
  unfold wrap32 toSigned32
  simp only
  split <;> split <;> omega

/-! ## Unfolding equations -/

theorem fac_zero_arg (fuel : Nat) : fac (fuel + 1) 0 = some 1 := by
  simp [fac]

theorem fac_succ {n : Int} (hn : n ≠ 0) (fuel : Nat) :
    fac (fuel + 1) n = (fac fuel (sub32 n 1)).map (fun r => mul32 n r) := by
  simp [fac, hn]

theorem fac_tr_loop_zero_arg (fuel : Nat) (acc : Int) :
    fac_tr_loop (fuel + 1) 0 acc = some acc := by
  simp [fac_tr_loop]

theorem fac_tr_loop_succ {n : Int} (hn : n ≠ 0) (fuel : Nat) (acc : Int) :
    fac_tr_loop (fuel + 1) n acc = fac_tr_loop fuel (sub32 n 1) (mul32 n acc) := by
  simp [fac_tr_loop, hn]

theorem sub32_one_natCast_succ (k : Nat) (hk : ((k + 1 : Nat) : Int) ≤ INT_MAX) :
    sub32 ((k + 1 : Nat) : Int) 1 = (k : Int) := by
  unfold INT_MAX at hk
  have h : InRange (((k + 1 : Nat) : Int) - 1) := by
    unfold InRange INT_MIN INT_MAX
    omega
  unfold sub32
  rw [wrap32_of_inRange h]
  omega

/-! ## Values on non-negative arguments -/

theorem fac_natCast (k : Nat) :
    ∀ fuel : Nat, k < fuel → (k : Int) ≤ INT_MAX →
      fac fuel (k : Int) = some (wrap32 (factorial k : Nat)) := by
  induction k with
  | zero =>
    intro fuel hf _
    obtain ⟨f, rfl⟩ := Nat.exists_eq_succ_of_ne_zero (Nat.pos_iff_ne_zero.mp hf)
    rw [Nat.succ_eq_add_one, Nat.cast_zero, fac_zero_arg]
    rfl
  | succ k ih =>
    intro fuel hf hk
    obtain ⟨f, rfl⟩ := Nat.exists_eq_succ_of_ne_zero (Nat.pos_iff_ne_zero.mp (Nat.zero_lt_of_lt hf))
    have hne : ((k + 1 : Nat) : Int) ≠ 0 := by omega
    have hk' : (k : Int) ≤ INT_MAX := by
      unfold INT_MAX at hk ⊢
      omega
    rw [Nat.succ_eq_add_one, fac_succ hne, sub32_one_natCast_succ k hk,
      ih f (by omega) hk', Option.map_some']
    simp only [mul32, factorial, wrap32_mul_wrap32, Nat.cast_mul]

theorem fac_tr_loop_natCast (k : Nat) :
    ∀ (fuel : Nat) (acc : Int), k < fuel → (k : Int) ≤ INT_MAX → InRange acc →
      fac_tr_loop fuel (k : Int) acc = some (wrap32 ((factorial k : Nat) * acc)) := by
  induction k with
  | zero =>
    intro fuel acc hf _ hacc
    obtain ⟨f, rfl⟩ := Nat.exists_eq_succ_of_ne_zero (Nat.pos_iff_ne_zero.mp hf)
    rw [Nat.succ_eq_add_one, Nat.cast_zero, fac_tr_loop_zero_arg]
    simp [factorial, wrap32_of_inRange hacc]
  | succ k ih =>
    intro fuel acc hf hk _
    obtain ⟨f, rfl⟩ := Nat.exists_eq_succ_of_ne_zero (Nat.pos_iff_ne_zero.mp (Nat.zero_lt_of_lt hf))
    have hne : ((k + 1 : Nat) : Int) ≠ 0 := by omega
    have hk' : (k : Int) ≤ INT_MAX := by
      unfold INT_MAX at hk ⊢
      omega
    rw [Nat.succ_eq_add_one, fac_tr_loop_succ hne, sub32_one_natCast_succ k hk,
      ih f (mul32 _ acc) (by omega) hk' (wrap32_inRange _)]
    simp only [mul32, factorial, wrap32_mul_wrap32, Nat.cast_mul]
    congr 2
    ring

/-! ## Recursion depth -/

theorem depth_eq_zero {n : Int} (hn : InRange n) (h : depth n = 0) : n = 0 := by
  unfold InRange INT_MIN INT_MAX at hn
  unfold depth at h
  omega

theorem depth_zero : depth 0 = 0 := by
  decide

theorem depth_sub32 {n : Int} (hne : n ≠ 0) (hn : InRange n) :
    depth (sub32 n 1) + 1 = depth n := by
  unfold InRange INT_MIN INT_MAX at hn
  unfold depth sub32
  rw [wrap32_emod]
  omega

theorem depth_of_nonneg {n : Int} (h0 : 0 ≤ n) (hn : n ≤ INT_MAX) : depth n = n.toNat := by
  unfold INT_MAX at hn
  unfold depth
  omega

theorem depth_of_neg {n : Int} (h0 : n < 0) (hn : INT_MIN ≤ n) :
    depth n = (n + 4294967296).toNat := by
  unfold INT_MIN at hn
  unfold depth
  omega

theorem fac_eq_none_iff_aux (d : Nat) :
    ∀ n : Int, InRange n → depth n = d → ∀ fuel : Nat, (fac fuel n = none ↔ fuel ≤ d) := by
  induction d with
  | zero =>
    intro n hn hd fuel
    obtain rfl := depth_eq_zero hn hd
    cases fuel with
    | zero => simp [fac]
    | succ f => simp [fac]
  | succ d ih =>
    intro n hn hd fuel
    have hne : n ≠ 0 := by
      rintro rfl
      rw [depth_zero] at hd
      omega
    cases fuel with
    | zero => simp [fac]
    | succ f =>
      have hd' : depth (sub32 n 1) = d := by
        have := depth_sub32 hne hn
        omega
      rw [fac_succ hne, Option.map_eq_none', ih (sub32 n 1) (wrap32_inRange _) hd' f]
      omega

theorem fac_tr_loop_eq_none_iff_aux (d : Nat) :
    ∀ n : Int, InRange n → depth n = d →
      ∀ (fuel : Nat) (acc : Int), (fac_tr_loop fuel n acc = none ↔ fuel ≤ d) := by
  induction d with
  | zero =>
    intro n hn hd fuel acc
    obtain rfl := depth_eq_zero hn hd
    cases fuel with
    | zero => simp [fac_tr_loop]
    | succ f => simp [fac_tr_loop]
  | succ d ih =>
    intro n hn hd fuel acc
    have hne : n ≠ 0 := by
      rintro rfl
      rw [depth_zero] at hd
      omega
    cases fuel with
    | zero => simp [fac_tr_loop]
    | succ f =>
      have hd' : depth (sub32 n 1) = d := by
        have := depth_sub32 hne hn
        omega
      rw [fac_tr_loop_succ hne, ih (sub32 n 1) (wrap32_inRange _) hd' f]
      omega

/-- With wrapping decrement `fac` returns exactly when the fuel exceeds `depth n`. -/
theorem fac_eq_none_iff {n : Int} (hn : InRange n) (fuel : Nat) :
    fac fuel n = none ↔ fuel ≤ depth n :=
  fac_eq_none_iff_aux (depth n) n hn rfl fuel

/-- With wrapping decrement `fac_tr_loop` returns exactly when the fuel exceeds `depth n`. -/
theorem fac_tr_loop_eq_none_iff {n : Int} (hn : InRange n) (fuel : Nat) (acc : Int) :
    fac_tr_loop fuel n acc = none ↔ fuel ≤ depth n :=
  fac_tr_loop_eq_none_iff_aux (depth n) n hn rfl fuel acc

/-! ## Size of the factorial -/

theorem factorial_eq_natFactorial (k : Nat) : factorial k = Nat.factorial k := by
  induction k with
  | zero => rfl
  | succ k ih => rw [factorial, ih, Nat.factorial_succ]

theorem factorial_pos (k : Nat) : 0 < factorial k := by
  rw [factorial_eq_natFactorial]
  exact Nat.factorial_pos k

theorem factorial_mono {a b : Nat} (h : a ≤ b) : factorial a ≤ factorial b := by
  rw [factorial_eq_natFactorial, factorial_eq_natFactorial]
  exact Nat.factorial_le h

theorem factorial_twelve : factorial 12 = 479001600 := by
  decide

theorem factorial_thirteen : factorial 13 = 6227020800 := by
  decide

/-- The factorial fits a 32-bit signed integer exactly up to `12!`. -/
theorem factorial_inRange_iff (k : Nat) : InRange ((factorial k : Nat) : Int) ↔ k ≤ 12 := by
  unfold InRange INT_MIN INT_MAX
  constructor
  · intro h
    by_contra hk
    have h13 : factorial 13 ≤ factorial k := factorial_mono (by omega)
    rw [factorial_thirteen] at h13
    omega
  · intro hk
    have h12 : factorial k ≤ factorial 12 := factorial_mono hk
    rw [factorial_twelve] at h12
    omega

theorem wrap32_factorial_of_le_twelve {k : Nat} (hk : k ≤ 12) :
    wrap32 ((factorial k : Nat) : Int) = ((factorial k : Nat) : Int) :=
  wrap32_of_inRange ((factorial_inRange_iff k).mpr hk)

theorem natCast_le_INT_MAX_of_le_twelve {k : Nat} (hk : k ≤ 12) : (k : Int) ≤ INT_MAX := by
  unfold INT_MAX
  omega

/-- An accumulator whose product with a factorial fits `int` fits `int` itself. -/
theorem inRange_of_factorial_mul_inRange (k : Nat) (acc : Int)
    (h : InRange (((factorial k : Nat) : Int) * acc)) : InRange acc := by
  have hpos : (1 : Int) ≤ ((factorial k : Nat) : Int) := by
    have := factorial_pos k
    omega
  unfold InRange INT_MIN INT_MAX at h ⊢
  rcases le_or_lt 0 acc with hacc | hacc
  · have : acc ≤ ((factorial k : Nat) : Int) * acc := by nlinarith
    omega
  · have : ((factorial k : Nat) : Int) * acc ≤ acc := by nlinarith
    omega

/-! ## Divisibility of large factorials by `2^32` -/

theorem two_pow_32_dvd_factorial {k : Nat} (hk : 34 ≤ k) : 4294967296 ∣ factorial k := by
  have h34 : 4294967296 ∣ factorial 34 := by decide
  rw [factorial_eq_natFactorial] at h34 ⊢
  exact h34.trans (Nat.factorial_dvd_factorial hk)

theorem wrap32_eq_zero_of_dvd {x : Int} (h : (4294967296 : Int) ∣ x) : wrap32 x = 0 := by
  have h0 : x % 4294967296 = 0 := Int.emod_eq_zero_of_dvd h
  unfold wrap32
  simp [h0]

theorem fac_INT_MAX :
    fac 2147483648 2147483647 = some (wrap32 ((factorial 2147483647 : Nat) : Int)) := by
  have h := fac_natCast 2147483647 2147483648 (by norm_num) (by unfold INT_MAX; norm_num)
  exact_mod_cast h

theorem fac_tr_loop_INT_MAX (acc : Int) (hacc : InRange acc) :
    fac_tr_loop 2147483648 2147483647 acc =
      some (wrap32 (((factorial 2147483647 : Nat) : Int) * acc)) := by
  have h := fac_tr_loop_natCast 2147483647 2147483648 acc (by norm_num)
    (by unfold INT_MAX; norm_num) hacc
  exact_mod_cast h

theorem two_pow_32_dvd_factorial_INT_MAX :
    (4294967296 : Int) ∣ ((factorial 2147483647 : Nat) : Int) := by
  have h : 4294967296 ∣ factorial 2147483647 := two_pow_32_dvd_factorial (by norm_num)
  exact_mod_cast h

/-! ## The sequence of arguments -/

/-- While the decrement does not leave the `int` range, the argument of the
`j`-th nested call started at `n` is `n - j`. -/
theorem iterate_sub32 (j : Nat) :
    ∀ n : Int, n ≤ INT_MAX → INT_MIN ≤ n - j → (fun m => sub32 m 1)^[j] n = n - j := by
  induction j with
  | zero =>
    intro n _ _
    simp
  | succ j ih =>
    intro n hmax hmin
    unfold INT_MIN at hmin
    unfold INT_MAX at hmax
    have hr : InRange (n - 1) := by
      unfold InRange INT_MIN INT_MAX
      omega
    have hstep : sub32 n 1 = n - 1 := wrap32_of_inRange hr
    rw [Function.iterate_succ_apply, hstep,
      ih (n - 1) (by unfold INT_MAX; omega) (by unfold INT_MIN; omega)]
    omega

theorem exists_some_iff_ne_none {o : Option Int} : (∃ r, o = some r) ↔ ¬ o = none := by
  cases o <;> simp

/-! ## Concrete evaluations -/

set_option maxRecDepth 8192 in
theorem fac_twenty : fac 21 20 = some (-2102132736) := by
  decide

set_option maxRecDepth 8192 in
theorem fac_tr_twenty : fac_tr 21 20 = some (-2102132736) := by
  decide

/-! ## Further arithmetic of wrapped factorials -/

theorem wrap32_wrap32_mul (a b : Int) : wrap32 (wrap32 a * b) = wrap32 (a * b) := by
  rw [mul_comm (wrap32 a) b, wrap32_mul_wrap32, mul_comm]

theorem dvd_of_wrap32_eq_zero {x : Int} (h : wrap32 x = 0) : (4294967296 : Int) ∣ x := by
  have h0 := wrap32_emod x
  rw [h] at h0
  exact Int.dvd_of_emod_eq_zero h0.symm

theorem inRange_of_wrap32_eq {x : Int} (h : wrap32 x = x) : InRange x := by
  rw [← h]
  exact wrap32_inRange x

theorem not_two_pow_32_dvd_factorial {k : Nat} (hk : k ≤ 33) : ¬ 4294967296 ∣ factorial k := by
  intro h
  have h33 : ¬ 4294967296 ∣ factorial 33 := by decide
  apply h33
  rw [factorial_eq_natFactorial] at h ⊢
  exact h.trans (Nat.factorial_dvd_factorial hk)

theorem wrap32_factorial_ne_zero {k : Nat} (hk : k ≤ 33) :
    wrap32 ((factorial k : Nat) : Int) ≠ 0 := by
  intro h
  have hd := dvd_of_wrap32_eq_zero h
  exact not_two_pow_32_dvd_factorial hk (by exact_mod_cast hd)

set_option maxRecDepth 8192 in
theorem wrap32_factorial_pos_of_le_sixteen {k : Nat} (hk : k ≤ 16) :
    0 < wrap32 ((factorial k : Nat) : Int) := by
  interval_cases k <;> decide

set_option maxRecDepth 8192 in
theorem fac_thirty_three : fac 34 33 = some (-2147483648) := by
  decide

set_option maxRecDepth 8192 in
theorem fac_seventeen : fac 18 17 = some (-288522240) := by
  decide

set_option maxRecDepth 8192 in
theorem fac_thirteen_to_sixteen :
    fac 14 13 = some 1932053504 ∧ fac 15 14 = some 1278945280 ∧
      fac 16 15 = some 2004310016 ∧ fac 17 16 = some 2004189184 := by
  decide

/-! ## The claims -/

/-- C1: for every integer `n` with `0 ≤ n ≤ 12`, which is exactly the range in
which `n!` fits a 32-bit signed integer, `fac(n)` returns (as soon as the fuel
allows more than `n` nested calls) exactly the mathematical factorial `n!`;
in particular `fac(10) = 3628800`. -/
theorem fac_eq_factorial_upto_twelve :
    (∀ (n : Int) (fuel : Nat), 0 ≤ n → n ≤ 12 → n.toNat < fuel →
      fac fuel n = some ((factorial n.toNat : Nat) : Int)) ∧
    (∀ k : Nat, InRange ((factorial k : Nat) : Int) ↔ k ≤ 12) ∧
    fac 11 10 = some 3628800 := by
  refine ⟨?_, factorial_inRange_iff, by decide⟩
  intro n fuel h0 h12 hf
  obtain ⟨k, rfl⟩ := Int.eq_ofNat_of_zero_le h0
  simp only [Int.toNat_ofNat] at hf ⊢
  have hk : k ≤ 12 := by omega
  rw [fac_natCast k fuel hf (natCast_le_INT_MAX_of_le_twelve hk),
    wrap32_factorial_of_le_twelve hk]

theorem fac_eq_factorial_upto_twelve_witness :
    (0 : Int) ≤ 7 ∧ (7 : Int) ≤ 12 ∧ (7 : Int).toNat < 8 ∧
      fac 8 7 = some ((factorial (7 : Int).toNat : Nat) : Int) :=
  ⟨by decide, by decide, by decide,
    fac_eq_factorial_upto_twelve.1 7 8 (by decide) (by decide) (by decide)⟩

/-- C2: for every `n ≥ 0` and every accumulator `acc` such that `n!` and the
mathematical product `n! * acc` fit a 32-bit signed integer,
`fac_tr_loop(n, acc)` returns exactly `n! * acc`, which is `fac(n) * acc`;
in particular `fac_tr_loop(5, 2) = 240`. -/
theorem fac_tr_loop_eq_factorial_mul :
    (∀ (n acc : Int) (fuel : Nat), 0 ≤ n →
      InRange ((factorial n.toNat : Nat) : Int) →
      InRange (((factorial n.toNat : Nat) : Int) * acc) →
      n.toNat < fuel →
      fac_tr_loop fuel n acc = some (((factorial n.toNat : Nat) : Int) * acc) ∧
      ∃ r : Int, fac fuel n = some r ∧ fac_tr_loop fuel n acc = some (r * acc)) ∧
    fac_tr_loop 6 5 2 = some 240 := by
  refine ⟨?_, by decide⟩
  intro n acc fuel h0 hfit hprod hf
  obtain ⟨k, rfl⟩ := Int.eq_ofNat_of_zero_le h0
  simp only [Int.toNat_ofNat] at hf hfit hprod ⊢
  have hk : k ≤ 12 := (factorial_inRange_iff k).mp hfit
  have hacc : InRange acc := inRange_of_factorial_mul_inRange k acc hprod
  have hloop : fac_tr_loop fuel (k : Int) acc = some (((factorial k : Nat) : Int) * acc) := by
    rw [fac_tr_loop_natCast k fuel acc hf (natCast_le_INT_MAX_of_le_twelve hk) hacc,
      wrap32_of_inRange hprod]
  refine ⟨hloop, ((factorial k : Nat) : Int), ?_, hloop⟩
  rw [fac_natCast k fuel hf (natCast_le_INT_MAX_of_le_twelve hk),
    wrap32_factorial_of_le_twelve hk]

theorem fac_tr_loop_eq_factorial_mul_witness :
    (0 : Int) ≤ 4 ∧ InRange ((factorial (4 : Int).toNat : Nat) : Int) ∧
      InRange (((factorial (4 : Int).toNat : Nat) : Int) * (-3)) ∧ (4 : Int).toNat < 5 ∧
      (fac_tr_loop 5 4 (-3) = some (((factorial (4 : Int).toNat : Nat) : Int) * (-3)) ∧
        ∃ r : Int, fac 5 4 = some r ∧ fac_tr_loop 5 4 (-3) = some (r * (-3))) :=
  ⟨by decide, by decide, by decide, by decide,
    fac_tr_loop_eq_factorial_mul.1 4 (-3) 5 (by decide) (by decide) (by decide) (by decide)⟩

/-- C3: for every `n` in `[0, N_max]`, where `N_max = 12` is the largest `n`
whose true factorial fits a 32-bit signed integer, the naive and the
tail-recursive implementation return, and return the same result:
`fac(n) == fac_tr(n)`. -/
theorem fac_eq_fac_tr_upto_N_max :
    (∀ (n : Int) (fuel : Nat), 0 ≤ n → n ≤ 12 → n.toNat < fuel →
      (∃ r : Int, fac fuel n = some r ∧ fac_tr fuel n = some r)) ∧
    InRange ((factorial 12 : Nat) : Int) ∧
    (∀ k : Nat, InRange ((factorial k : Nat) : Int) → k ≤ 12) := by
  refine ⟨?_, (factorial_inRange_iff 12).mpr le_rfl, fun k => (factorial_inRange_iff k).mp⟩
  intro n fuel h0 h12 hf
  obtain ⟨k, rfl⟩ := Int.eq_ofNat_of_zero_le h0
  simp only [Int.toNat_ofNat] at hf
  have hk : k ≤ 12 := by omega
  refine ⟨wrap32 ((factorial k : Nat) : Int),
    fac_natCast k fuel hf (natCast_le_INT_MAX_of_le_twelve hk), ?_⟩
  unfold fac_tr
  rw [fac_tr_loop_natCast k fuel 1 hf (natCast_le_INT_MAX_of_le_twelve hk) (by decide),
    mul_one]

theorem fac_eq_fac_tr_upto_N_max_witness :
    (0 : Int) ≤ 12 ∧ (12 : Int) ≤ 12 ∧ (12 : Int).toNat < 13 ∧
      (∃ r : Int, fac 13 12 = some r ∧ fac_tr 13 12 = some r) :=
  ⟨by decide, by decide, by decide,
    fac_eq_fac_tr_upto_N_max.1 12 13 (by decide) (by decide) (by decide)⟩

/-- C4: executing `main`, with any `argc` and `argv` and fuel for the six
nested calls that the argument `5` needs, writes exactly the two lines
`fac(5) = 120` and `fac(5) = 120`, each ended by a newline, to standard
output, the first carrying the value of `fac_tr(5)` and the second the value
of `fac(5)`, and returns exit code `0`. -/
theorem main_prints_two_lines :
    (∀ (fuel : Nat) (argc : Int) (argv : List String), 5 < fuel →
      main fuel argc argv = some ("fac(5) = 120\nfac(5) = 120\n", 0) ∧
      fac_tr fuel 5 = some 120 ∧ fac fuel 5 = some 120) ∧
    (∀ (fuel : Nat) (argc : Int) (argv : List String) (a b : Int),
      fac_tr fuel 5 = some a → fac fuel 5 = some b →
      main fuel argc argv =
        some ("fac(5) = " ++ fmt_d a ++ "\n" ++ ("fac(5) = " ++ fmt_d b ++ "\n"), 0)) := by
  constructor
  · intro fuel argc argv hf
    have h1 : fac_tr fuel 5 = some 120 := by
      have := fac_tr_loop_natCast 5 fuel 1 hf (by decide) (by decide)
      simpa [fac_tr] using this.trans (by decide)
    have h2 : fac fuel 5 = some 120 := by
      have := fac_natCast 5 fuel hf (by decide)
      exact this.trans (by decide)
    refine ⟨?_, h1, h2⟩
    unfold main
    rw [h1, h2]
    decide
  · intro fuel argc argv a b ha hb
    unfold main
    rw [ha, hb]
    simp

theorem main_prints_two_lines_witness :
    5 < 6 ∧ (main 6 1 ["./fac"] = some ("fac(5) = 120\nfac(5) = 120\n", 0) ∧
      fac_tr 6 5 = some 120 ∧ fac 6 5 = some 120) :=
  ⟨by decide, main_prints_two_lines.1 6 1 ["./fac"] (by decide)⟩

/-- C5: base case: `fac(0) == 1` and `fac_tr(0) == 1`; both variants return `1`
on input `0` as soon as a single call is allowed. -/
theorem fac_zero_and_fac_tr_zero (fuel : Nat) :
    fac (fuel + 1) 0 = some 1 ∧ fac_tr (fuel + 1) 0 = some 1 := by
  exact ⟨fac_zero_arg fuel, fac_tr_loop_zero_arg fuel 1⟩

/-- C6: recurrence: for every `n` in `[1, N_max]` with `N_max = 12`,
`factorial(n) == n * factorial(n-1)` with the mathematical product, for the
naive variant `fac` and for the tail-recursive variant `fac_tr` alike. -/
theorem fac_recurrence_upto_N_max (n : Int) (fuel : Nat)
    (h1 : 1 ≤ n) (h12 : n ≤ 12) (hf : n.toNat < fuel) :
    (∃ a b : Int, fac fuel n = some a ∧ fac fuel (n - 1) = some b ∧ a = n * b) ∧
    (∃ c d : Int, fac_tr fuel n = some c ∧ fac_tr fuel (n - 1) = some d ∧ c = n * d) := by
  obtain ⟨m, rfl⟩ := Int.eq_ofNat_of_zero_le (by omega : 0 ≤ n)
  obtain ⟨k, rfl⟩ : ∃ k : Nat, m = k + 1 := ⟨m - 1, by omega⟩
  simp only [Int.toNat_ofNat] at hf
  have hk1 : k + 1 ≤ 12 := by omega
  have hk : k ≤ 12 := by omega
  have hsub : (((k + 1 : Nat) : Int)) - 1 = (k : Int) := by omega
  have hrec : (((factorial (k + 1) : Nat)) : Int) = ((k + 1 : Nat) : Int) * ((factorial k : Nat) : Int) := by
    rw [factorial, Nat.cast_mul]
  rw [hsub]
  constructor
  · refine ⟨_, _, fac_natCast (k + 1) fuel hf (natCast_le_INT_MAX_of_le_twelve hk1),
      fac_natCast k fuel (by omega) (natCast_le_INT_MAX_of_le_twelve hk), ?_⟩
    rw [wrap32_factorial_of_le_twelve hk1, wrap32_factorial_of_le_twelve hk, hrec]
  · unfold fac_tr
    refine ⟨_, _,
      fac_tr_loop_natCast (k + 1) fuel 1 hf (natCast_le_INT_MAX_of_le_twelve hk1) (by decide),
      fac_tr_loop_natCast k fuel 1 (by omega) (natCast_le_INT_MAX_of_le_twelve hk) (by decide),
      ?_⟩
    rw [mul_one, mul_one, wrap32_factorial_of_le_twelve hk1,
      wrap32_factorial_of_le_twelve hk, hrec]

theorem fac_recurrence_upto_N_max_witness :
    (1 : Int) ≤ 12 ∧ (12 : Int) ≤ 12 ∧ (12 : Int).toNat < 13 ∧
      ((∃ a b : Int, fac 13 12 = some a ∧ fac 13 (12 - 1) = some b ∧ a = 12 * b) ∧
       (∃ c d : Int, fac_tr 13 12 = some c ∧ fac_tr 13 (12 - 1) = some d ∧ c = 12 * d)) :=
  ⟨by decide, by decide, by decide,
    fac_recurrence_upto_N_max 12 13 (by decide) (by decide) (by decide)⟩

/-- C7: for every `int` `n ≥ 0`, `fac(n)` is, with 32-bit multiplication
wrapping modulo `2^32`, the value `n!` reduced modulo `2^32` and read as a
two's-complement signed 32-bit integer; this is `n!` itself whenever `n!` is
representable, and e.g. `fac(13) = 1932053504`, not `13! = 6227020800`. -/
theorem fac_eq_wrapped_factorial :
    (∀ (n : Int) (fuel : Nat), 0 ≤ n → n ≤ INT_MAX → n.toNat < fuel →
      fac fuel n = some (toSigned32 (factorial n.toNat)) ∧
      (InRange ((factorial n.toNat : Nat) : Int) →
        toSigned32 (factorial n.toNat) = ((factorial n.toNat : Nat) : Int))) ∧
    fac 14 13 = some 1932053504 ∧ factorial 13 = 6227020800 := by
  refine ⟨?_, by decide, by decide⟩
  intro n fuel h0 hmax hf
  obtain ⟨k, rfl⟩ := Int.eq_ofNat_of_zero_le h0
  simp only [Int.toNat_ofNat] at hf ⊢
  constructor
  · rw [fac_natCast k fuel hf hmax, wrap32_natCast]
  · intro hfit
    rw [← wrap32_natCast, wrap32_of_inRange hfit]

theorem fac_eq_wrapped_factorial_witness :
    (0 : Int) ≤ 17 ∧ (17 : Int) ≤ INT_MAX ∧ (17 : Int).toNat < 18 ∧
      (fac 18 17 = some (toSigned32 (factorial (17 : Int).toNat)) ∧
      (InRange ((factorial (17 : Int).toNat : Nat) : Int) →
        toSigned32 (factorial (17 : Int).toNat) = ((factorial (17 : Int).toNat : Nat) : Int))) :=
  ⟨by decide, by decide, by decide,
    fac_eq_wrapped_factorial.1 17 18 (by decide) (by decide) (by decide)⟩

/-- C8: the tail-recursive variant has the overflow behaviour of the naive
one: with 32-bit wrap-around multiplication, `fac_tr(n) == fac(n)` for every
`int` `n ≥ 0`, both returning, including every `n > 12` whose factorial
overflows, e.g. `fac_tr(13) == fac(13)` and `fac_tr(20) == fac(20)`. -/
theorem fac_tr_eq_fac_with_overflow :
    (∀ (n : Int) (fuel : Nat), 0 ≤ n → n ≤ INT_MAX → n.toNat < fuel →
      ∃ r : Int, fac_tr fuel n = some r ∧ fac fuel n = some r) ∧
    (fac_tr 14 13 = some 1932053504 ∧ fac 14 13 = some 1932053504) ∧
    (fac_tr 21 20 = some (-2102132736) ∧ fac 21 20 = some (-2102132736)) := by
  refine ⟨?_, by decide, ⟨fac_tr_twenty, fac_twenty⟩⟩
  intro n fuel h0 hmax hf
  obtain ⟨k, rfl⟩ := Int.eq_ofNat_of_zero_le h0
  simp only [Int.toNat_ofNat] at hf
  refine ⟨wrap32 ((factorial k : Nat) : Int), ?_, fac_natCast k fuel hf hmax⟩
  unfold fac_tr
  rw [fac_tr_loop_natCast k fuel 1 hf hmax (by decide), mul_one]

theorem fac_tr_eq_fac_with_overflow_witness :
    (0 : Int) ≤ 15 ∧ (15 : Int) ≤ INT_MAX ∧ (15 : Int).toNat < 16 ∧
      (∃ r : Int, fac_tr 16 15 = some r ∧ fac 16 15 = some r) :=
  ⟨by decide, by decide, by decide,
    fac_tr_eq_fac_with_overflow.1 15 16 (by decide) (by decide) (by decide)⟩

/-- C9, as stated, fails at `n = INT_MIN`: the wrapping decrement of
`-2147483648` is `2147483647`, and from there the recursion of `fac` and of
`fac_tr_loop` reaches the `n == 0` base case and returns (the value `0`). -/
theorem neg_start_reaches_base_case :
    sub32 (-2147483648) 1 = 2147483647 ∧
    fac 2147483649 (-2147483648) = some 0 ∧
    fac_tr_loop 2147483649 (-2147483648) 1 = some 0 := by
  have hsub : sub32 (-2147483648) 1 = 2147483647 := by decide
  refine ⟨hsub, ?_, ?_⟩
  · show fac (2147483648 + 1) (-2147483648) = some 0
    rw [fac_succ (by decide), hsub, fac_INT_MAX, Option.map_some', mul32, wrap32_mul_wrap32,
      wrap32_eq_zero_of_dvd]
    obtain ⟨c, hc⟩ := two_pow_32_dvd_factorial_INT_MAX
    exact ⟨-2147483648 * c, by rw [hc]; ring⟩
  · show fac_tr_loop (2147483648 + 1) (-2147483648) 1 = some 0
    have hmul : mul32 (-2147483648) 1 = -2147483648 := by decide
    rw [fac_tr_loop_succ (by decide), hsub, hmul, fac_tr_loop_INT_MAX _ (by decide),
      wrap32_eq_zero_of_dvd]
    obtain ⟨c, hc⟩ := two_pow_32_dvd_factorial_INT_MAX
    exact ⟨c * -2147483648, by rw [hc]; ring⟩

/-- C9, amended: for every negative `int` `n`, the arguments `n, n-1, ...,
INT_MIN` of the first `n + 2^31 + 1` nested calls are all negative, so the
`n == 0` base case is not reached before the decrement of `INT_MIN` wraps to
`INT_MAX`; `fac` and `fac_tr_loop` return exactly when more than `n + 2^32`
nested calls are allowed. -/
theorem neg_start_no_base_case_before_wrap (n : Int) (fuel : Nat)
    (hmin : INT_MIN ≤ n) (hneg : n < 0) :
    (∀ j : Nat, (j : Int) ≤ n - INT_MIN →
      (fun m => sub32 m 1)^[j] n = n - j ∧ (fun m => sub32 m 1)^[j] n < 0) ∧
    (fun m => sub32 m 1)^[(n - INT_MIN).toNat + 1] n = INT_MAX ∧
    (fac fuel n = none ↔ (fuel : Int) ≤ n + 4294967296) ∧
    (∀ acc : Int, fac_tr_loop fuel n acc = none ↔ (fuel : Int) ≤ n + 4294967296) := by
  have hr : InRange n := by
    unfold InRange INT_MAX
    exact ⟨hmin, by omega⟩
  have hd := depth_of_neg hneg hmin
  have hiter : ∀ j : Nat, (j : Int) ≤ n - INT_MIN → (fun m => sub32 m 1)^[j] n = n - j := by
    intro j hj
    exact iterate_sub32 j n hr.2 (by omega)
  unfold INT_MIN at hmin
  refine ⟨?_, ?_, ?_, ?_⟩
  · intro j hj
    rw [hiter j hj]
    exact ⟨rfl, by omega⟩
  · rw [Function.iterate_succ_apply', hiter _ (by unfold INT_MIN; omega)]
    have : n - ((n - INT_MIN).toNat : Int) = -2147483648 := by
      unfold INT_MIN
      omega
    rw [this]
    decide
  · rw [fac_eq_none_iff hr, hd]
    omega
  · intro acc
    rw [fac_tr_loop_eq_none_iff hr, hd]
    omega

theorem neg_start_no_base_case_before_wrap_witness :
    INT_MIN ≤ -3 ∧ (-3 : Int) < 0 ∧
    ((∀ j : Nat, (j : Int) ≤ -3 - INT_MIN →
      (fun m => sub32 m 1)^[j] (-3) = -3 - j ∧ (fun m => sub32 m 1)^[j] (-3) < 0) ∧
    (fun m => sub32 m 1)^[(-3 - INT_MIN).toNat + 1] (-3) = INT_MAX ∧
    (fac 40 (-3) = none ↔ ((40 : Nat) : Int) ≤ -3 + 4294967296) ∧
    (∀ acc : Int, fac_tr_loop 40 (-3) acc = none ↔ ((40 : Nat) : Int) ≤ -3 + 4294967296)) :=
  ⟨by decide, by decide, neg_start_no_base_case_before_wrap (-3) 40 (by decide) (by decide)⟩

/-- C10: for every `n` with `0 ≤ n ≤ 2^31 - 1` and every `acc`, `fac(n)` and
`fac_tr_loop(n, acc)` terminate: each recursive call is made on `n - 1`, which
is non-negative and strictly smaller, the argument after `j ≤ n` calls is
`n - j`, and the `n == 0` base case is reached after exactly `n` recursive
calls (the call returns if and only if more than `n` nested calls are
allowed). -/
theorem nonneg_start_terminates (n acc : Int) (fuel : Nat)
    (h0 : 0 ≤ n) (hmax : n ≤ INT_MAX) :
    (n ≠ 0 → sub32 n 1 = n - 1 ∧ 0 ≤ sub32 n 1 ∧ sub32 n 1 < n) ∧
    (∀ j : Nat, j ≤ n.toNat → (fun m => sub32 m 1)^[j] n = n - j) ∧
    (fun m => sub32 m 1)^[n.toNat] n = 0 ∧
    ((∃ r : Int, fac fuel n = some r) ↔ n.toNat < fuel) ∧
    ((∃ r : Int, fac_tr_loop fuel n acc = some r) ↔ n.toNat < fuel) := by
  have hr : InRange n := by
    unfold InRange INT_MIN
    exact ⟨by omega, hmax⟩
  have hd := depth_of_nonneg h0 hmax
  have hiter : ∀ j : Nat, j ≤ n.toNat → (fun m => sub32 m 1)^[j] n = n - j := by
    intro j hj
    exact iterate_sub32 j n hmax (by unfold INT_MIN; omega)
  refine ⟨?_, hiter, ?_, ?_, ?_⟩
  · intro hne
    have h1 : InRange (n - 1) := by
      unfold InRange INT_MIN
      unfold INT_MAX at hmax ⊢
      omega
    have hstep : sub32 n 1 = n - 1 := wrap32_of_inRange h1
    rw [hstep]
    omega
  · rw [hiter _ le_rfl]
    omega
  · rw [exists_some_iff_ne_none, fac_eq_none_iff hr, hd]
    omega
  · rw [exists_some_iff_ne_none, fac_tr_loop_eq_none_iff hr, hd]
    omega

theorem nonneg_start_terminates_witness :
    (0 : Int) ≤ 9 ∧ (9 : Int) ≤ INT_MAX ∧
    ((9 ≠ (0 : Int) → sub32 9 1 = 9 - 1 ∧ 0 ≤ sub32 9 1 ∧ sub32 9 1 < 9) ∧
    (∀ j : Nat, j ≤ (9 : Int).toNat → (fun m => sub32 m 1)^[j] 9 = 9 - j) ∧
    (fun m => sub32 m 1)^[(9 : Int).toNat] 9 = 0 ∧
    ((∃ r : Int, fac 10 9 = some r) ↔ (9 : Int).toNat < 10) ∧
    ((∃ r : Int, fac_tr_loop 10 9 4 = some r) ↔ (9 : Int).toNat < 10)) :=
  ⟨by decide, by decide, nonneg_start_terminates 9 4 10 (by decide) (by decide)⟩

/-- C11: with 32-bit wrap-around multiplication the accumulator law needs no
range restriction: for every `int` `n ≥ 0` and every `int` `acc` (negative,
zero, or making the product overflow), `fac_tr_loop(n, acc)` returns the
wrapped product `fac(n) * acc`; in particular `fac_tr_loop(0, acc) = acc` and
`fac_tr_loop(n, 0) = 0`. -/
theorem fac_tr_loop_accumulator_law :
    (∀ (n acc : Int) (fuel : Nat), 0 ≤ n → n ≤ INT_MAX → InRange acc → n.toNat < fuel →
      ∃ r : Int, fac fuel n = some r ∧ fac_tr_loop fuel n acc = some (mul32 r acc)) ∧
    (∀ (acc : Int) (fuel : Nat), fac_tr_loop (fuel + 1) 0 acc = some acc) ∧
    (∀ (n : Int) (fuel : Nat), 0 ≤ n → n ≤ INT_MAX → n.toNat < fuel →
      fac_tr_loop fuel n 0 = some 0) := by
  refine ⟨?_, fun acc fuel => fac_tr_loop_zero_arg fuel acc, ?_⟩
  · intro n acc fuel h0 hmax hacc hf
    obtain ⟨k, rfl⟩ := Int.eq_ofNat_of_zero_le h0
    simp only [Int.toNat_ofNat] at hf
    refine ⟨wrap32 ((factorial k : Nat) : Int), fac_natCast k fuel hf hmax, ?_⟩
    rw [fac_tr_loop_natCast k fuel acc hf hmax hacc, mul32, wrap32_wrap32_mul]
  · intro n fuel h0 hmax hf
    obtain ⟨k, rfl⟩ := Int.eq_ofNat_of_zero_le h0
    simp only [Int.toNat_ofNat] at hf
    rw [fac_tr_loop_natCast k fuel 0 hf hmax (by decide), mul_zero]
    rfl

theorem fac_tr_loop_accumulator_law_witness :
    (0 : Int) ≤ 13 ∧ (13 : Int) ≤ INT_MAX ∧ InRange (-7) ∧ (13 : Int).toNat < 14 ∧
      (∃ r : Int, fac 14 13 = some r ∧ fac_tr_loop 14 13 (-7) = some (mul32 r (-7))) :=
  ⟨by decide, by decide, by decide, by decide,
    fac_tr_loop_accumulator_law.1 13 (-7) 14 (by decide) (by decide) (by decide) (by decide)⟩

/-- C12: the overflow threshold of the 32-bit signed implementation is exactly
`12`: for every `int` `n ≥ 0`, `fac(n)` computed with wrap-around equals the
true `n!` if and only if `n ≤ 12`; `fac(12) = 479001600 = 12!` is the last
correct value, and for every `n ≥ 13` the returned value differs from `n!`. -/
theorem fac_exact_iff_le_twelve :
    (∀ (n : Int) (fuel : Nat), 0 ≤ n → n ≤ INT_MAX → n.toNat < fuel →
      (fac fuel n = some ((factorial n.toNat : Nat) : Int) ↔ n ≤ 12)) ∧
    (fac 13 12 = some 479001600 ∧ factorial 12 = 479001600) ∧
    (∀ (n : Int) (fuel : Nat), 13 ≤ n → n ≤ INT_MAX → n.toNat < fuel →
      ∃ r : Int, fac fuel n = some r ∧ r ≠ ((factorial n.toNat : Nat) : Int)) := by
  have key : ∀ k : Nat,
      wrap32 ((factorial k : Nat) : Int) = ((factorial k : Nat) : Int) ↔ k ≤ 12 := by
    intro k
    constructor
    · intro h
      exact (factorial_inRange_iff k).mp (inRange_of_wrap32_eq h)
    · intro h
      exact wrap32_factorial_of_le_twelve h
  refine ⟨?_, ⟨by decide, by decide⟩, ?_⟩
  · intro n fuel h0 hmax hf
    obtain ⟨k, rfl⟩ := Int.eq_ofNat_of_zero_le h0
    simp only [Int.toNat_ofNat] at hf ⊢
    rw [fac_natCast k fuel hf hmax, Option.some_inj, key k]
    omega
  · intro n fuel h13 hmax hf
    obtain ⟨k, rfl⟩ := Int.eq_ofNat_of_zero_le (by omega : 0 ≤ n)
    simp only [Int.toNat_ofNat] at hf ⊢
    refine ⟨wrap32 ((factorial k : Nat) : Int), fac_natCast k fuel hf hmax, ?_⟩
    intro h
    have := (key k).mp h
    omega

theorem fac_exact_iff_le_twelve_witness :
    (0 : Int) ≤ 13 ∧ (13 : Int) ≤ INT_MAX ∧ (13 : Int).toNat < 14 ∧
      (fac 14 13 = some ((factorial (13 : Int).toNat : Nat) : Int) ↔ (13 : Int) ≤ 12) :=
  ⟨by decide, by decide, by decide,
    fac_exact_iff_le_twelve.1 13 14 (by decide) (by decide) (by decide)⟩

/-- C13: with 32-bit wrap-around multiplication `fac(n) = 0` for every `n` with
`34 ≤ n ≤ 2^31 - 1`, because `2^32` divides `n!` from `n = 34` on, and `34` is
the smallest such input: `fac(n) != 0` for every `0 ≤ n ≤ 33`, with
`fac(33) = -2147483648`. -/
theorem fac_eq_zero_from_thirty_four :
    (∀ (n : Int) (fuel : Nat), 34 ≤ n → n ≤ INT_MAX → n.toNat < fuel →
      fac fuel n = some 0 ∧ 4294967296 ∣ factorial n.toNat) ∧
    (∀ (n : Int) (fuel : Nat), 0 ≤ n → n ≤ 33 → n.toNat < fuel →
      ∃ r : Int, fac fuel n = some r ∧ r ≠ 0) ∧
    fac 34 33 = some (-2147483648) := by
  refine ⟨?_, ?_, fac_thirty_three⟩
  · intro n fuel h34 hmax hf
    obtain ⟨k, rfl⟩ := Int.eq_ofNat_of_zero_le (by omega : 0 ≤ n)
    simp only [Int.toNat_ofNat] at hf ⊢
    have hdvd : 4294967296 ∣ factorial k := two_pow_32_dvd_factorial (by omega)
    refine ⟨?_, hdvd⟩
    rw [fac_natCast k fuel hf hmax, wrap32_eq_zero_of_dvd (by exact_mod_cast hdvd)]
  · intro n fuel h0 h33 hf
    obtain ⟨k, rfl⟩ := Int.eq_ofNat_of_zero_le h0
    simp only [Int.toNat_ofNat] at hf
    have hk : k ≤ 33 := by omega
    have hmax : (k : Int) ≤ INT_MAX := by
      unfold INT_MAX
      omega
    exact ⟨wrap32 ((factorial k : Nat) : Int), fac_natCast k fuel hf hmax,
      wrap32_factorial_ne_zero hk⟩

theorem fac_eq_zero_from_thirty_four_witness :
    (34 : Int) ≤ 34 ∧ (34 : Int) ≤ INT_MAX ∧ (34 : Int).toNat < 35 ∧
      (fac 35 34 = some 0 ∧ 4294967296 ∣ factorial (34 : Int).toNat) :=
  ⟨by decide, by decide, by decide,
    fac_eq_zero_from_thirty_four.1 34 35 (by decide) (by decide) (by decide)⟩

/-- C14: the result of `fac` on a non-negative input is not always positive:
`fac(n) ≥ 1` for every `0 ≤ n ≤ 12`, but with 32-bit wrap-around
multiplication `fac(17) = -288522240 < 0`, and `17` is the smallest `n ≥ 0`
with a negative result: `fac(n) > 0` for every `0 ≤ n ≤ 16`, the values of
`fac(13)` through `fac(16)` being wrapped but positive. -/
theorem fac_first_negative_at_seventeen :
    (∀ (n : Int) (fuel : Nat), 0 ≤ n → n ≤ 12 → n.toNat < fuel →
      ∃ r : Int, fac fuel n = some r ∧ 1 ≤ r) ∧
    (fac 18 17 = some (-288522240) ∧ (-288522240 : Int) < 0) ∧
    (∀ (n : Int) (fuel : Nat), 0 ≤ n → n ≤ 16 → n.toNat < fuel →
      ∃ r : Int, fac fuel n = some r ∧ 0 < r) ∧
    (fac 14 13 = some 1932053504 ∧ fac 15 14 = some 1278945280 ∧
      fac 16 15 = some 2004310016 ∧ fac 17 16 = some 2004189184) ∧
    (factorial 13 ≠ 1932053504 ∧ factorial 14 ≠ 1278945280 ∧
      factorial 15 ≠ 2004310016 ∧ factorial 16 ≠ 2004189184) := by
  have pos : ∀ (n : Int) (fuel : Nat), 0 ≤ n → n ≤ 16 → n.toNat < fuel →
      ∃ r : Int, fac fuel n = some r ∧ 0 < r := by
    intro n fuel h0 h16 hf
    obtain ⟨k, rfl⟩ := Int.eq_ofNat_of_zero_le h0
    simp only [Int.toNat_ofNat] at hf
    have hk : k ≤ 16 := by omega
    have hmax : (k : Int) ≤ INT_MAX := by
      unfold INT_MAX
      omega
    exact ⟨wrap32 ((factorial k : Nat) : Int), fac_natCast k fuel hf hmax,
      wrap32_factorial_pos_of_le_sixteen hk⟩
  refine ⟨?_, ⟨fac_seventeen, by decide⟩, pos, fac_thirteen_to_sixteen, by decide⟩
  intro n fuel h0 h12 hf
  obtain ⟨r, hr, hpos⟩ := pos n fuel h0 (by omega) hf
  exact ⟨r, hr, by omega⟩

theorem fac_first_negative_at_seventeen_witness :
    (0 : Int) ≤ 16 ∧ (16 : Int) ≤ 16 ∧ (16 : Int).toNat < 17 ∧
      (∃ r : Int, fac 17 16 = some r ∧ 0 < r) :=
  ⟨by decide, by decide, by decide,
    fac_first_negative_at_seventeen.2.2.1 16 17 (by decide) (by decide) (by decide)⟩

end Fac
